import Mathlib

/-!
Shallow embedding of the EM-data augmentation core (`src/em_data/augmentation/`):
the `Blur` (SectionBlur), `LongAff` (GreyscalePerturb) and `Flip` (RandomFlip)
augmentors.  Random draws are passed explicitly as inputs (each `np.random.*`
call of the source corresponds to a named field of a draw record); volumes are
dense 3-D arrays modelled as total functions on `Nat` indices together with
their extents; Python assertions and exceptions are modelled with `Except`.
-/

namespace EMData

/-- The Python exception classes raised by the source. -/
inductive Err where
  | assertionError
  | keyError
  | valueError
  | attributeError
deriving DecidableEq

/-- A dense 3-D volume with trailing spatial extents (Z, Y, X), values given by
a total function on indices (values outside the extents are phantom). -/
structure Volume (α : Type) where
  Z : Nat
  Y : Nat
  X : Nat
  data : Nat → Nat → Nat → α

/-- A sample: a mapping from string key to volume, as an association list. -/
def Sample (α : Type) : Type := List (String × Volume α)

/-- `sample[key]` lookup (first matching key). -/
def lookupS {α : Type} : Sample α → String → Option (Volume α)
  | [], _ => none
  | (k, v) :: t, key => if key = k then some v else lookupS t key

/-- `sample[key] = v` assignment. -/
def setVolS {α : Type} : Sample α → String → Volume α → Sample α
  | [], _, _ => []
  | (k, v) :: t, key, nv =>
    if k = key then (key, nv) :: setVolS t key nv else (k, v) :: setVolS t key nv

/-- The trailing-extent triple `array.shape[-3:]` of a volume. -/
def dimsOf {α : Type} (v : Volume α) : Nat × Nat × Nat := (v.Z, v.Y, v.X)

/-- The 2-D z-slice `vol[..., z, :, :]` of a volume. -/
def vslice {α : Type} (v : Volume α) (z : Nat) : Nat → Nat → α :=
  fun y x => v.data z y x

/-- In-place overwrite of z-slice `z` with the plane `sl`. -/
def setSlice {α : Type} (v : Volume α) (z : Nat) (sl : Nat → Nat → α) : Volume α :=
  ⟨v.Z, v.Y, v.X, fun z' y x => if z' = z then sl y x else v.data z' y x⟩

/-- Did an `Except` computation raise? -/
def raisesErr {α : Type} : Except Err α → Bool
  | .error _ => true
  | .ok _ => false

/-- Did an `Except` computation finish normally? -/
def returnsOk {α : Type} : Except Err α → Bool
  | .ok _ => true
  | .error _ => false

/-- `np.random.randint(lo, hi)`: raises `ValueError` on an empty range
`[lo, hi)`, otherwise returns a value of the range selected by the abstract
draw `d` (every value of `[lo, hi)` is reachable from some `d`). -/
def randint (lo hi : Int) (d : Nat) : Except Err Int :=
  if hi ≤ lo then .error .valueError else .ok (lo + (d : Int) % (hi - lo))

/-- The section count `np.random.randint(1, MAX_SEC + 1)` evaluates to when
the range is nonempty. -/
def drawnNumSec (maxSec : Int) (d : Nat) : Int :=
  1 + (d : Int) % maxSec

/-! ### Blur (SectionBlur), from `src/em_data/augmentation/blur.py` -/

/-- The validated `mode` of `Blur` (`'full'`, `'partial'`, `'mix'`). -/
inductive BlurMode where
  | full
  | part
  | mix
deriving DecidableEq

/-- The `Blur` augmentor instance: configuration fields set by `__init__` via
the setters, plus the `skip` attribute which exists only after `prepare`
(modelled as `Option Bool`, `none` = attribute absent). -/
structure Blur where
  MAX_SEC : Int
  sigma_max : ℚ
  mode : BlurMode
  skip_ratio : ℚ
  skip : Option Bool

/-- `Blur.set_max_sections`: `assert max_sec >= 0`. -/
def set_max_sections (m : Int) : Except Err Int :=
  if 0 ≤ m then .ok m else .error .assertionError

/-- `Blur.set_sigma_max`: `assert sigma_max >= 0`. -/
def set_sigma_max (s : ℚ) : Except Err ℚ :=
  if 0 ≤ s then .ok s else .error .assertionError

/-- `Blur.set_mode`: `assert mode=='full' or mode=='partial' or mode=='mix'`. -/
def set_mode_blur (m : String) : Except Err BlurMode :=
  if m = "full" then .ok .full
  else if m = "partial" then .ok .part
  else if m = "mix" then .ok .mix
  else .error .assertionError

/-- `set_skip_ratio`: `assert ratio >= 0.0 and ratio <= 1.0` (same in both
`Blur` and `LongAff`). -/
def set_skip_ratio (r : ℚ) : Except Err ℚ :=
  if 0 ≤ r ∧ r ≤ 1 then .ok r else .error .assertionError

/-- `Blur.__init__`: runs the four setters; the `skip` attribute is not
created. -/
def Blur.init (ms : Int) (sm : ℚ) (mo : String) (r : ℚ) : Except Err Blur :=
  match set_max_sections ms with
  | .error e => .error e
  | .ok ms' =>
    match set_sigma_max sm with
    | .error e => .error e
    | .ok sm' =>
      match set_mode_blur mo with
      | .error e => .error e
      | .ok mo' =>
        match set_skip_ratio r with
        | .error e => .error e
        | .ok r' => .ok ⟨ms', sm', mo', r', none⟩

/-- `Blur.prepare`: `self.skip = np.random.rand() < self.skip_ratio`; the
spec is returned unchanged (not modelled: it carries no information here). -/
def Blur.prepare (o : Blur) (u : ℚ) : Blur :=
  { o with skip := some (decide (u < o.skip_ratio)) }

/-- The per-call random draws consumed by `Blur.augment`, indexed by the loop
iteration that consumes them (z-position `i`, key-position `j`). -/
structure BlurDraws where
  numSecDraw : Nat
  zlocs : List Nat
  sigmaFull : Nat → Nat → ℚ
  sigmaShared : Nat → ℚ
  mixCoin : Nat → Nat → ℚ
  xdraw : Nat → Nat → Nat
  ydraw : Nat → Nat → Nat
  quad : Nat → Nat → Fin 4 → ℚ

/-- The per-key preamble loop of `Blur.augment`: `sample[key].shape[-3:]`
(KeyError on a missing key), `assert num_sec < dim[-3]`, and collection of the
dimension triples. -/
def checkKeys {α : Type} (ns : Int) (s : Sample α) : List String → Except Err (List (Nat × Nat × Nat))
  | [] => .ok []
  | k :: t =>
    match lookupS s k with
    | none => .error .keyError
    | some v =>
      if ns < (v.Z : Int) then
        match checkKeys ns s t with
        | .error e => .error e
        | .ok ds => .ok (dimsOf v :: ds)
      else .error .assertionError

/-- Iterate `for key in imgs:` updating the volume of each present key with
`f` applied at the loop position `j` of that key. -/
def mapVols {α : Type} (f : Nat → Volume α → Volume α) : Nat → List String → Sample α → Sample α
  | _, [], s => s
  | j, k :: ks, s =>
    match lookupS s k with
    | none => mapVols f (j + 1) ks s
    | some v => mapVols f (j + 1) ks (setVolS s k (f j v))

/-- The four quadrant writes of the partial path in `Blur.augment`: the plane is
split at `(ys, xs)` and each quadrant is taken from the blurred plane `B` when
its rule bit is set, else from the original plane `S` (`rule[0]`: `[:y,:x]`,
`rule[1]`: `[y:,:x]`, `rule[2]`: `[:y,x:]`, `rule[3]`: `[y:,x:]`). -/
def quadAssemble {α : Type} (ys xs : Nat) (r0 r1 r2 r3 : Bool) (S B : Nat → Nat → α) :
    Nat → Nat → α :=
  fun y x =>
    if y < ys then
      (if x < xs then (if r0 then B y x else S y x) else (if r2 then B y x else S y x))
    else
      (if x < xs then (if r1 then B y x else S y x) else (if r3 then B y x else S y x))

/-- One per-(z, key) body of the partial/mix branch of `Blur.augment`: full
replacement when `mode == 'mix'` and the coin flip `rand() > 0.5` succeeds;
otherwise quadrant assembly with split `x = np.random.randint(0, xdim)` drawn
first, then `y = np.random.randint(0, ydim)` — each raising `ValueError` on
an empty range, i.e. on a zero extent — and rule bits
`np.random.rand(4) > 0.5`. -/
def quadStep (m : BlurMode) (coin : ℚ) (xdim ydim xd yd : Nat) (q : Fin 4 → ℚ)
    (S B : Nat → Nat → ℚ) : Except Err (Nat → Nat → ℚ) :=
  if m = BlurMode.mix ∧ (1 : ℚ) / 2 < coin then .ok B
  else
    match randint 0 (xdim : Int) xd with
    | .error e => .error e
    | .ok xs =>
      match randint 0 (ydim : Int) yd with
      | .error e => .error e
      | .ok ys =>
        .ok (quadAssemble ys.toNat xs.toNat
          (decide ((1 : ℚ) / 2 < q 0)) (decide ((1 : ℚ) / 2 < q 1))
          (decide ((1 : ℚ) / 2 < q 2)) (decide ((1 : ℚ) / 2 < q 3)) S B)

/-- The `mode == 'full'` double loop of `Blur.augment`: for each chosen
z-location (outer, position `i`), for each key (inner, position `j`), draw a
fresh `sigma = rand() * sigma_max` and overwrite the z-slice with its blur. -/
def blurFullLoop (G : ℚ → (Nat → Nat → ℚ) → Nat → Nat → ℚ) (σm : ℚ)
    (sigF : Nat → Nat → ℚ) : Nat → List Nat → List String → Sample ℚ → Sample ℚ
  | _, [], _, s => s
  | i, z :: zs, imgs, s =>
    blurFullLoop G σm sigF (i + 1) zs imgs
      (mapVols (fun j v => setSlice v z (G (sigF i j * σm) (vslice v z))) 0 imgs s)

/-- Iterate `for key in imgs:` with a per-key body that can raise, stopping
at the first error (the partial path can raise `ValueError` mid-loop). -/
def mapVolsE {α : Type} (f : Nat → Volume α → Except Err (Volume α)) :
    Nat → List String → Sample α → Except Err (Sample α)
  | _, [], s => .ok s
  | j, k :: ks, s =>
    match lookupS s k with
    | none => mapVolsE f (j + 1) ks s
    | some v =>
      match f j v with
      | .error e => .error e
      | .ok v' => mapVolsE f (j + 1) ks (setVolS s k v')

/-- The partial/mix double loop of `Blur.augment`: one `sigma` per z-location
shared by all keys, then the per-key `quadStep` (whose split-point draws can
raise on a zero extent). -/
def blurPartLoop (G : ℚ → (Nat → Nat → ℚ) → Nat → Nat → ℚ) (σm : ℚ) (m : BlurMode)
    (dr : BlurDraws) (xdim ydim : Nat) :
    Nat → List Nat → List String → Sample ℚ → Except Err (Sample ℚ)
  | _, [], _, s => .ok s
  | i, z :: zs, imgs, s =>
    match mapVolsE (fun j v =>
      match quadStep m (dr.mixCoin i j) xdim ydim (dr.xdraw i j) (dr.ydraw i j)
        (dr.quad i j) (vslice v z) (G (dr.sigmaShared i * σm) (vslice v z)) with
      | .error e => .error e
      | .ok sl => .ok (setSlice v z sl)) 0 imgs s with
    | .error e => .error e
    | .ok s' => blurPartLoop G σm m dr xdim ydim (i + 1) zs imgs s'

/-- `Blur.augment`: draw the section count, validate the extents of every key and
the count against the z-extent, then run the mode-specific loop.  `G` is the
external Gaussian-smoothing collaborator (`scipy.ndimage.gaussian_filter`). -/
def Blur.augment (G : ℚ → (Nat → Nat → ℚ) → Nat → Nat → ℚ) (cfg : Blur)
    (dr : BlurDraws) (sample : Sample ℚ) (imgs : List String) : Except Err (Sample ℚ) :=
  match randint 1 (cfg.MAX_SEC + 1) dr.numSecDraw with
  | .error e => .error e
  | .ok ns =>
    match checkKeys ns sample imgs with
    | .error e => .error e
    | .ok ds =>
      match ds.dedup with
      | [d] =>
        match cfg.mode with
        | .full => .ok (blurFullLoop G cfg.sigma_max dr.sigmaFull 0 dr.zlocs imgs sample)
        | m => blurPartLoop G cfg.sigma_max m dr d.2.2 d.2.1 0 dr.zlocs imgs sample
      | _ => .error .assertionError

/-- `Blur.__call__`: reads `self.skip` (AttributeError if `prepare` never set
it), returns the sample untouched when skipping, else augments. -/
def Blur.call (o : Blur) (G : ℚ → (Nat → Nat → ℚ) → Nat → Nat → ℚ) (dr : BlurDraws)
    (sample : Sample ℚ) (imgs : List String) : Except Err (Sample ℚ) :=
  match o.skip with
  | none => .error .attributeError
  | some b => if b then .ok sample else Blur.augment G o dr sample imgs

/-- Modelled from the spec: the external Gaussian smoothing primitive
(`scipy.ndimage.filters.gaussian_filter`), which is not part of `src/`.  The
spec fixes only that "Gaussian blur with zero width is identity"; a positive
width is modelled as an arbitrary same-shaped local averaging. -/
def gaussianFilterM (σ : ℚ) (img : Nat → Nat → ℚ) : Nat → Nat → ℚ :=
  if σ = 0 then img
  else fun y x => (img y x + img (y + 1) x + img y (x + 1)) / 3

/-! ### LongAff (GreyscalePerturb), from `src/em_data/augmentation/long_aff.py` -/

/-- The validated `mode` of `LongAff` (`'2D'`, `'3D'`, `'mix'`). -/
inductive GreyMode where
  | twoD
  | threeD
  | mix
deriving DecidableEq

/-- The `LongAff` augmentor instance; `skip` exists only after `prepare`. -/
structure LongAff where
  mode : GreyMode
  skip_ratio : ℚ
  CONTRAST_FACTOR : ℚ
  BRIGHTNESS_FACTOR : ℚ
  skip : Option Bool

/-- `LongAff.set_mode`: `assert mode=='2D' or mode=='3D' or mode=='mix'`. -/
def set_mode_grey (m : String) : Except Err GreyMode :=
  if m = "2D" then .ok .twoD
  else if m = "3D" then .ok .threeD
  else if m = "mix" then .ok .mix
  else .error .assertionError

/-- `LongAff.__init__`: runs the setters and fixes the two factors at 0.3;
the `skip` attribute is not created. -/
def LongAff.init (mo : String) (r : ℚ) : Except Err LongAff :=
  match set_mode_grey mo with
  | .error e => .error e
  | .ok mo' =>
    match set_skip_ratio r with
    | .error e => .error e
    | .ok r' => .ok ⟨mo', r', 3 / 10, 3 / 10, none⟩

/-- `LongAff.prepare`: `self.skip = np.random.rand() < self.skip_ratio`. -/
def LongAff.prepare (o : LongAff) (u : ℚ) : LongAff :=
  { o with skip := some (decide (u < o.skip_ratio)) }

/-- The random draws consumed by one `LongAff` application: the mode coin and
fresh contrast/brightness/gamma uniforms per (key `j`, z-slice `z`) for the 2D
path and per key `j` for the 3D path. -/
structure GreyDraws where
  modeCoin : ℚ
  c2 : Nat → Nat → ℚ
  b2 : Nat → Nat → ℚ
  g2 : Nat → Nat → ℚ
  c3 : Nat → ℚ
  b3 : Nat → ℚ
  g3 : Nat → ℚ

/-- `np.clip(x, 0, 1)`. -/
def clip01 (x : ℝ) : ℝ := min 1 (max 0 x)

/-- The gamma exponent `2.0 ** (np.random.rand() * 2 - 1)`. -/
noncomputable def gamma2 (u : ℚ) : ℝ := (2 : ℝ) ^ (((u : ℝ)) * 2 - 1)

/-- The contrast scale `1 + (np.random.rand() - 0.5) * CONTRAST_FACTOR`. -/
def contrastScale (f u : ℚ) : ℚ := 1 + (u - 1 / 2) * f

/-- The brightness shift `(np.random.rand() - 0.5) * BRIGHTNESS_FACTOR`. -/
def brightShift (f u : ℚ) : ℚ := (u - 1 / 2) * f

/-- The pointwise greyscale pipeline, in source order: multiply by the
contrast scale, add the brightness shift, clip to [0, 1], raise to the gamma
exponent. -/
noncomputable def greyPoint (c b g x : ℝ) : ℝ := clip01 (x * c + b) ^ g

/-- The per-key body of `LongAff.augment2D`: every z-slice in `range(zdim)`
gets the pipeline with its own fresh draws. -/
noncomputable def grey2DVol (o : LongAff) (d : GreyDraws) (j : Nat) (v : Volume ℝ) : Volume ℝ :=
  ⟨v.Z, v.Y, v.X, fun z y x =>
    if z < v.Z then
      greyPoint (↑(contrastScale o.CONTRAST_FACTOR (d.c2 j z)))
        (↑(brightShift o.BRIGHTNESS_FACTOR (d.b2 j z))) (gamma2 (d.g2 j z)) (v.data z y x)
    else v.data z y x⟩

/-- The per-key body of `LongAff.augment3D`: one triple of draws for the whole
volume. -/
noncomputable def grey3DVol (o : LongAff) (d : GreyDraws) (j : Nat) (v : Volume ℝ) : Volume ℝ :=
  ⟨v.Z, v.Y, v.X, fun z y x =>
    greyPoint (↑(contrastScale o.CONTRAST_FACTOR (d.c3 j)))
      (↑(brightShift o.BRIGHTNESS_FACTOR (d.b3 j))) (gamma2 (d.g3 j)) (v.data z y x)⟩

/-- `LongAff.augment2D`. -/
noncomputable def LongAff.augment2D (o : LongAff) (d : GreyDraws) (sample : Sample ℝ)
    (imgs : List String) : Sample ℝ :=
  mapVols (grey2DVol o d) 0 imgs sample

/-- `LongAff.augment3D`. -/
noncomputable def LongAff.augment3D (o : LongAff) (d : GreyDraws) (sample : Sample ℝ)
    (imgs : List String) : Sample ℝ :=
  mapVols (grey3DVol o d) 0 imgs sample

/-- `LongAff.__call__`: reads `self.skip` (AttributeError before `prepare`);
if not skipping, resolves `mix` with the coin `rand() > 0.5` and dispatches. -/
noncomputable def LongAff.call (o : LongAff) (d : GreyDraws) (sample : Sample ℝ)
    (imgs : List String) : Except Err (Sample ℝ) :=
  match o.skip with
  | none => .error .attributeError
  | some b =>
    if b then .ok sample
    else
      match o.mode with
      | .mix =>
        if (1 : ℚ) / 2 < d.modeCoin then .ok (LongAff.augment3D o d sample imgs)
        else .ok (LongAff.augment2D o d sample imgs)
      | .twoD => .ok (LongAff.augment2D o d sample imgs)
      | .threeD => .ok (LongAff.augment3D o d sample imgs)

/-! ### Flip (RandomFlip), from `src/em_data/augmentation/flip.py` -/

/-- The 4-element boolean rule vector: {reverse Z, reverse Y, reverse X,
transpose Y/X}. -/
structure FlipRule where
  rz : Bool
  ry : Bool
  rx : Bool
  tr : Bool
deriving DecidableEq

/-- The freshly drawn rule `np.random.rand(4) > 0.5`. -/
def coinRule (du : Fin 4 → ℚ) : FlipRule :=
  ⟨decide ((1 : ℚ) / 2 < du 0), decide ((1 : ℚ) / 2 < du 1),
   decide ((1 : ℚ) / 2 < du 2), decide ((1 : ℚ) / 2 < du 3)⟩

/-- The rule actually used by `Flip.__call__`: the caller-supplied one when
present, else the coin-flip vector. -/
def resolveRule (rule : Option FlipRule) (du : Fin 4 → ℚ) : FlipRule :=
  rule.getD (coinRule du)

/-- Reverse an index along an axis of extent `n` when the rule bit is set. -/
def revIdx (b : Bool) (n i : Nat) : Nat := if b then n - 1 - i else i

/-- Modelled from the spec: `em_segLib.transform.flip`, which is not part of
`src/`.  Per the spec, the four rule bits are interpreted as {reverse axis Z,
reverse axis Y, reverse axis X, transpose Y/X}: the axis reversals are applied
to the volume and, when the transpose bit is set, the trailing Y and X axes
are exchanged (the output extents become (Z, X, Y)). -/
def flipVol {α : Type} (r : FlipRule) (v : Volume α) : Volume α :=
  if r.tr then
    ⟨v.Z, v.X, v.Y, fun z a b =>
      v.data (revIdx r.rz v.Z z) (revIdx r.ry v.Y b) (revIdx r.rx v.X a)⟩
  else
    ⟨v.Z, v.Y, v.X, fun z y x =>
      v.data (revIdx r.rz v.Z z) (revIdx r.ry v.Y y) (revIdx r.rx v.X x)⟩

/-- `Flip.__call__`: resolve the rule once, then transform every volume of the
sample with that same rule. -/
def Flip.call {α : Type} (sample : Sample α) (rule : Option FlipRule) (du : Fin 4 → ℚ) :
    Sample α :=
  sample.map fun kv => (kv.1, flipVol (resolveRule rule du) kv.2)

/-- The all-true rule vector. -/
def allTrueRule : FlipRule := ⟨true, true, true, true⟩

/-! ### Helper lemmas -/

theorem lookupS_setVolS_self {α : Type} (s : Sample α) (k : String) (nv : Volume α) :
    lookupS (setVolS s k nv) k = (lookupS s k).map fun _ => nv := by
  induction s with
  | nil => rfl
  | cons kv t ih =>
    obtain ⟨k0, v0⟩ := kv
    by_cases h : k0 = k
    · subst h
      simp [setVolS, lookupS]
    · have h' : ¬ k = k0 := fun hk => h hk.symm
      rw [setVolS, if_neg h]
      simp only [lookupS, if_neg h']
      exact ih

theorem lookupS_setVolS_ne {α : Type} (s : Sample α) (k k' : String) (nv : Volume α)
    (h : k' ≠ k) : lookupS (setVolS s k nv) k' = lookupS s k' := by
  induction s with
  | nil => rfl
  | cons kv t ih =>
    obtain ⟨k0, v0⟩ := kv
    by_cases hk : k0 = k
    · subst hk
      rw [setVolS, if_pos rfl]
      simp only [lookupS, if_neg h]
      exact ih
    · rw [setVolS, if_neg hk]
      simp only [lookupS]
      by_cases hx : k' = k0
      · simp [hx]
      · simp only [if_neg hx]
        exact ih

theorem lookupS_mapVols_not_mem {α : Type} (f : Nat → Volume α → Volume α)
    (imgs : List String) (k : String) (hk : k ∉ imgs) :
    ∀ (j0 : Nat) (s : Sample α), lookupS (mapVols f j0 imgs s) k = lookupS s k := by
  induction imgs with
  | nil => intro j0 s; rfl
  | cons k0 ks ih =>
    intro j0 s
    have hk0 : k ≠ k0 := fun h => hk (h ▸ List.mem_cons_self k0 ks)
    have hks : k ∉ ks := fun h => hk (List.mem_cons_of_mem _ h)
    simp only [mapVols]
    cases hl : lookupS s k0 with
    | none => exact ih hks _ s
    | some v =>
      rw [ih hks _ _, lookupS_setVolS_ne _ _ _ _ hk0]

theorem lookupS_mapVols_get {α : Type} (f : Nat → Volume α → Volume α)
    (imgs : List String) (hnd : imgs.Nodup) :
    ∀ (j : Nat) (hj : j < imgs.length) (j0 : Nat) (s : Sample α) (v : Volume α),
      lookupS s (imgs.get ⟨j, hj⟩) = some v →
      lookupS (mapVols f j0 imgs s) (imgs.get ⟨j, hj⟩) = some (f (j0 + j) v) := by
  induction imgs with
  | nil => intro j hj; exact absurd hj (Nat.not_lt_zero j)
  | cons k0 ks ih =>
    intro j hj j0 s v hv
    obtain ⟨hk0, hksnd⟩ := List.nodup_cons.mp hnd
    cases j with
    | zero =>
      simp only [List.get] at hv ⊢
      simp only [mapVols, hv]
      rw [lookupS_mapVols_not_mem f ks k0 hk0]
      rw [lookupS_setVolS_self, hv]
      simp
    | succ jj =>
      simp only [List.get] at hv ⊢
      have hjj : jj < ks.length := Nat.lt_of_succ_lt_succ hj
      have hmem : ks.get ⟨jj, hjj⟩ ∈ ks := List.get_mem ks jj hjj
      have hne : ks.get ⟨jj, hjj⟩ ≠ k0 := fun h => hk0 (h ▸ hmem)
      simp only [mapVols]
      have harith : j0 + 1 + jj = j0 + (jj + 1) := by omega
      cases hl : lookupS s k0 with
      | none =>
        have := ih hksnd jj hjj (j0 + 1) s v hv
        rw [harith] at this
        exact this
      | some v0 =>
        have hv' : lookupS (setVolS s k0 (f j0 v0)) (ks.get ⟨jj, hjj⟩) = some v := by
          rw [lookupS_setVolS_ne _ _ _ _ hne]; exact hv
        have := ih hksnd jj hjj (j0 + 1) _ v hv'
        rw [harith] at this
        exact this

theorem checkKeys_ok {α : Type} (ns : Int) (s : Sample α) (D : Nat × Nat × Nat) :
    ∀ (imgs : List String),
      (∀ k ∈ imgs, ∃ v, lookupS s k = some v ∧ ns < (v.Z : Int) ∧ dimsOf v = D) →
      checkKeys ns s imgs = .ok (imgs.map fun _ => D) := by
  intro imgs
  induction imgs with
  | nil => intro _; rfl
  | cons k0 ks ih =>
    intro hall
    obtain ⟨v0, hl0, hz0, hd0⟩ := hall k0 (List.mem_cons_self k0 ks)
    have htail := ih fun k hk => hall k (List.mem_cons_of_mem _ hk)
    simp only [checkKeys, hl0, if_pos hz0, htail, hd0, List.map_cons]

theorem checkKeys_err {α : Type} (ns : Int) (s : Sample α) :
    ∀ (imgs : List String),
      (∀ k ∈ imgs, ∃ v, lookupS s k = some v) →
      (∃ k ∈ imgs, ∃ v, lookupS s k = some v ∧ (v.Z : Int) ≤ ns) →
      ∃ e, checkKeys ns s imgs = .error e := by
  intro imgs
  induction imgs with
  | nil =>
    rintro _ ⟨k, hk, _⟩
    exact absurd hk (List.not_mem_nil k)
  | cons k0 ks ih =>
    rintro hall ⟨k, hk, v, hkv, hvz⟩
    obtain ⟨v0, hl0⟩ := hall k0 (List.mem_cons_self k0 ks)
    by_cases h0 : ns < (v0.Z : Int)
    · have hbad : ∃ k ∈ ks, ∃ v, lookupS s k = some v ∧ (v.Z : Int) ≤ ns := by
        rcases List.mem_cons.mp hk with rfl | hmem
        · rw [hl0] at hkv
          cases hkv
          exact absurd h0 (not_lt.mpr hvz)
        · exact ⟨k, hmem, v, hkv, hvz⟩
      obtain ⟨e, he⟩ := ih (fun k hk => hall k (List.mem_cons_of_mem _ hk)) hbad
      refine ⟨e, ?_⟩
      simp only [checkKeys, hl0, if_pos h0, he]
    · exact ⟨.assertionError, by simp only [checkKeys, hl0, if_neg h0]⟩

theorem checkKeys_mem {α : Type} (ns : Int) (s : Sample α) :
    ∀ (imgs : List String),
      (∀ k ∈ imgs, ∃ v, lookupS s k = some v ∧ ns < (v.Z : Int)) →
      ∃ ds, checkKeys ns s imgs = .ok ds ∧
        ∀ k ∈ imgs, ∀ v, lookupS s k = some v → dimsOf v ∈ ds := by
  intro imgs
  induction imgs with
  | nil => intro _; exact ⟨[], rfl, fun k hk => absurd hk (List.not_mem_nil k)⟩
  | cons k0 ks ih =>
    intro hall
    obtain ⟨v0, hl0, hz0⟩ := hall k0 (List.mem_cons_self k0 ks)
    obtain ⟨ds, hds, hmem⟩ := ih fun k hk => hall k (List.mem_cons_of_mem _ hk)
    refine ⟨dimsOf v0 :: ds, ?_, ?_⟩
    · simp only [checkKeys, hl0, if_pos hz0, hds]
    · intro k hk v hv
      rcases List.mem_cons.mp hk with rfl | hmemk
      · rw [hl0] at hv
        cases hv
        exact List.mem_cons_self _ _
      · exact List.mem_cons_of_mem _ (hmem k hmemk v hv)

theorem dedup_const {α : Type} [DecidableEq α] (D : α) :
    ∀ (l : List α), (∀ d ∈ l, d = D) → l ≠ [] → l.dedup = [D] := by
  intro l
  induction l with
  | nil => intro _ h; exact absurd rfl h
  | cons a t ih =>
    intro hall _
    have ha : a = D := hall a (List.mem_cons_self a t)
    cases t with
    | nil => simp [ha]
    | cons b t' =>
      have htail : (b :: t').dedup = [D] :=
        ih (fun d hd => hall d (List.mem_cons_of_mem _ hd)) (List.cons_ne_nil b t')
      have hb : b = D := hall b (List.mem_cons_of_mem _ (List.mem_cons_self b t'))
      have hmem : a ∈ b :: t' := by
        rw [ha, hb]; exact List.mem_cons_self _ _
      rw [List.dedup_cons_of_mem hmem, htail]

theorem dedup_two {α : Type} [DecidableEq α] (l : List α) (a b : α)
    (ha : a ∈ l) (hb : b ∈ l) (hab : a ≠ b) : ∀ c, l.dedup ≠ [c] := by
  intro c hc
  have ha' : a ∈ l.dedup := List.mem_dedup.mpr ha
  have hb' : b ∈ l.dedup := List.mem_dedup.mpr hb
  rw [hc] at ha' hb'
  simp only [List.mem_singleton] at ha' hb'
  exact hab (ha'.trans hb'.symm)

theorem randint_pos (m : Int) (d : Nat) (hm : 1 ≤ m) :
    randint 1 (m + 1) d = .ok (drawnNumSec m d) := by
  have h : ¬ m + 1 ≤ 1 := by omega
  simp only [randint, if_neg h, drawnNumSec, add_sub_cancel_right]

theorem drawnNumSec_bounds (m : Int) (d : Nat) (hm : 1 ≤ m) :
    1 ≤ drawnNumSec m d ∧ drawnNumSec m d ≤ m := by
  have hm0 : m ≠ 0 := by omega
  have h1 : 0 ≤ (d : Int) % m := Int.emod_nonneg d hm0
  have h2 : (d : Int) % m < m := Int.emod_lt_of_pos d (by omega)
  constructor <;> simp only [drawnNumSec] <;> omega

theorem blurFullLoop_char (G : ℚ → (Nat → Nat → ℚ) → Nat → Nat → ℚ) (σm : ℚ)
    (sigF : Nat → Nat → ℚ) (imgs : List String) (hnd : imgs.Nodup) :
    ∀ (zl : List Nat), zl.Nodup →
      ∀ (i0 : Nat) (s : Sample ℚ) (j : Nat) (hj : j < imgs.length) (v : Volume ℚ),
        lookupS s (imgs.get ⟨j, hj⟩) = some v →
        ∃ v', lookupS (blurFullLoop G σm sigF i0 zl imgs s) (imgs.get ⟨j, hj⟩) = some v' ∧
          v'.Z = v.Z ∧ v'.Y = v.Y ∧ v'.X = v.X ∧
          (∀ z, z ∉ zl → ∀ y x, v'.data z y x = v.data z y x) ∧
          (∀ i, ∀ hi : i < zl.length, ∀ y x,
            v'.data (zl.get ⟨i, hi⟩) y x =
              G (sigF (i0 + i) j * σm) (vslice v (zl.get ⟨i, hi⟩)) y x) := by
  intro zl
  induction zl with
  | nil =>
    intro _ i0 s j hj v hv
    exact ⟨v, hv, rfl, rfl, rfl, fun _ _ _ _ => rfl,
      fun i hi => absurd hi (Nat.not_lt_zero i)⟩
  | cons z0 zs ih =>
    intro hznd i0 s j hj v hv
    obtain ⟨hz0, hzsnd⟩ := List.nodup_cons.mp hznd
    set v1 : Volume ℚ := setSlice v z0 (G (sigF i0 j * σm) (vslice v z0)) with hv1
    have hs1 : lookupS
        (mapVols (fun j' v' => setSlice v' z0 (G (sigF i0 j' * σm) (vslice v' z0))) 0 imgs s)
        (imgs.get ⟨j, hj⟩) = some v1 := by
      have := lookupS_mapVols_get
        (fun j' v' => setSlice v' z0 (G (sigF i0 j' * σm) (vslice v' z0))) imgs hnd j hj 0 s v hv
      simpa using this
    obtain ⟨v', hl', hZ, hY, hX, hunt, hcho⟩ := ih hzsnd (i0 + 1) _ j hj v1 hs1
    refine ⟨v', ?_, ?_, ?_, ?_, ?_, ?_⟩
    · simpa only [blurFullLoop] using hl'
    · rw [hZ]; rfl
    · rw [hY]; rfl
    · rw [hX]; rfl
    · intro z hz y x
      have hzzs : z ∉ zs := fun h => hz (List.mem_cons_of_mem _ h)
      have hzz0 : z ≠ z0 := fun h => hz (h ▸ List.mem_cons_self z0 zs)
      rw [hunt z hzzs y x]
      simp only [hv1, setSlice, if_neg hzz0]
    · intro i hi y x
      cases i with
      | zero =>
        have hg0 : (z0 :: zs).get ⟨0, hi⟩ = z0 := rfl
        rw [hg0, hunt z0 hz0 y x]
        simp [hv1, setSlice]
      | succ ii =>
        have hii : ii < zs.length := Nat.lt_of_succ_lt_succ hi
        have hgz : (z0 :: zs).get ⟨ii + 1, hi⟩ = zs.get ⟨ii, hii⟩ := rfl
        rw [hgz]
        have hne : zs.get ⟨ii, hii⟩ ≠ z0 := fun h => hz0 (h ▸ List.get_mem zs ii hii)
        have hslice : vslice v1 (zs.get ⟨ii, hii⟩) = vslice v (zs.get ⟨ii, hii⟩) := by
          funext y' x'
          simp only [hv1, vslice, setSlice, if_neg hne]
        have := hcho ii hii y x
        rw [hslice] at this
        have harith : i0 + 1 + ii = i0 + (ii + 1) := by omega
        rw [harith] at this
        exact this

theorem augment_full_run (G : ℚ → (Nat → Nat → ℚ) → Nat → Nat → ℚ) (cfg : Blur)
    (dr : BlurDraws) (sample : Sample ℚ) (imgs : List String) (D : Nat × Nat × Nat)
    (hm : cfg.mode = .full) (hmax : 1 ≤ cfg.MAX_SEC) (hne : imgs ≠ [])
    (hall : ∀ k ∈ imgs, ∃ v, lookupS sample k = some v ∧
      drawnNumSec cfg.MAX_SEC dr.numSecDraw < (v.Z : Int) ∧ dimsOf v = D) :
    Blur.augment G cfg dr sample imgs =
      .ok (blurFullLoop G cfg.sigma_max dr.sigmaFull 0 dr.zlocs imgs sample) := by
  have hck := checkKeys_ok (drawnNumSec cfg.MAX_SEC dr.numSecDraw) sample D imgs hall
  have hdd : (imgs.map fun _ => D).dedup = [D] := by
    refine dedup_const D _ (fun d hd => ?_) ?_
    · obtain ⟨k, _, hk⟩ := List.mem_map.mp hd
      exact hk.symm
    · simpa using hne
  rw [Blur.augment, randint_pos _ _ hmax]
  dsimp only
  rw [hck]
  dsimp only
  rw [hdd]
  dsimp only
  rw [hm]

theorem augment_part_run (G : ℚ → (Nat → Nat → ℚ) → Nat → Nat → ℚ) (cfg : Blur)
    (dr : BlurDraws) (sample : Sample ℚ) (imgs : List String) (Z Y X : Nat)
    (hm : cfg.mode = .part) (hmax : 1 ≤ cfg.MAX_SEC) (hne : imgs ≠ [])
    (hall : ∀ k ∈ imgs, ∃ v, lookupS sample k = some v ∧
      drawnNumSec cfg.MAX_SEC dr.numSecDraw < (v.Z : Int) ∧ dimsOf v = (Z, Y, X)) :
    Blur.augment G cfg dr sample imgs =
      blurPartLoop G cfg.sigma_max .part dr X Y 0 dr.zlocs imgs sample := by
  have hck := checkKeys_ok (drawnNumSec cfg.MAX_SEC dr.numSecDraw) sample (Z, Y, X) imgs hall
  have hdd : (imgs.map fun _ => (Z, Y, X)).dedup = [(Z, Y, X)] := by
    refine dedup_const (Z, Y, X) _ (fun d hd => ?_) ?_
    · obtain ⟨k, _, hk⟩ := List.mem_map.mp hd
      exact hk.symm
    · simpa using hne
  rw [Blur.augment, randint_pos _ _ hmax]
  dsimp only
  rw [hck]
  dsimp only
  rw [hdd]
  dsimp only
  rw [hm]

theorem quadStep_ok (m : BlurMode) (coin : ℚ) (xdim ydim xd yd : Nat) (q : Fin 4 → ℚ)
    (S B : Nat → Nat → ℚ) (hx : 0 < xdim) (hy : 0 < ydim) :
    ∃ sl, quadStep m coin xdim ydim xd yd q S B = .ok sl := by
  rw [quadStep]
  by_cases hmc : m = BlurMode.mix ∧ (1 : ℚ) / 2 < coin
  · rw [if_pos hmc]
    exact ⟨B, rfl⟩
  · rw [if_neg hmc]
    have hxc : ¬((xdim : Int) ≤ 0) := by omega
    have hyc : ¬((ydim : Int) ≤ 0) := by omega
    have hxr : randint 0 (xdim : Int) xd = .ok (0 + (xd : Int) % (xdim : Int)) := by
      rw [randint, if_neg hxc, sub_zero]
    have hyr : randint 0 (ydim : Int) yd = .ok (0 + (yd : Int) % (ydim : Int)) := by
      rw [randint, if_neg hyc, sub_zero]
    rw [hxr]
    dsimp only
    rw [hyr]
    exact ⟨_, rfl⟩

theorem mapVolsE_ok {α : Type} (f : Nat → Volume α → Except Err (Volume α))
    (hf : ∀ j v, ∃ v', f j v = .ok v') :
    ∀ (imgs : List String) (j0 : Nat) (s : Sample α),
      ∃ s', mapVolsE f j0 imgs s = .ok s' := by
  intro imgs
  induction imgs with
  | nil => intro j0 s; exact ⟨s, rfl⟩
  | cons k ks ih =>
    intro j0 s
    simp only [mapVolsE]
    cases hl : lookupS s k with
    | none => exact ih (j0 + 1) s
    | some v =>
      obtain ⟨v', hv'⟩ := hf j0 v
      dsimp only
      rw [hv']
      exact ih (j0 + 1) (setVolS s k v')

theorem blurPartLoop_ok (G : ℚ → (Nat → Nat → ℚ) → Nat → Nat → ℚ) (σm : ℚ)
    (m : BlurMode) (dr : BlurDraws) (xdim ydim : Nat) (hx : 0 < xdim) (hy : 0 < ydim) :
    ∀ (zl : List Nat) (i : Nat) (imgs : List String) (s : Sample ℚ),
      ∃ s', blurPartLoop G σm m dr xdim ydim i zl imgs s = .ok s' := by
  intro zl
  induction zl with
  | nil => intro i imgs s; exact ⟨s, rfl⟩
  | cons z zs ih =>
    intro i imgs s
    simp only [blurPartLoop]
    obtain ⟨s1, hs1⟩ := mapVolsE_ok (fun j v =>
      match quadStep m (dr.mixCoin i j) xdim ydim (dr.xdraw i j) (dr.ydraw i j)
        (dr.quad i j) (vslice v z) (G (dr.sigmaShared i * σm) (vslice v z)) with
      | .error e => .error e
      | .ok sl => .ok (setSlice v z sl))
      (by
        intro j v
        obtain ⟨sl, hsl⟩ := quadStep_ok m (dr.mixCoin i j) xdim ydim (dr.xdraw i j)
          (dr.ydraw i j) (dr.quad i j) (vslice v z) (G (dr.sigmaShared i * σm) (vslice v z))
          hx hy
        dsimp only
        rw [hsl]
        exact ⟨_, rfl⟩)
      imgs 0 s
    rw [hs1]
    exact ih (i + 1) imgs s1

theorem greyPoint_bounds (c b g x : ℝ) (hg : 0 < g) :
    0 ≤ greyPoint c b g x ∧ greyPoint c b g x ≤ 1 := by
  have h0 : (0 : ℝ) ≤ clip01 (x * c + b) := by
    simp only [clip01]
    exact le_min zero_le_one (le_max_left 0 _)
  have h1 : clip01 (x * c + b) ≤ 1 := min_le_left 1 _
  exact ⟨Real.rpow_nonneg h0 g, Real.rpow_le_one h0 h1 (le_of_lt hg)⟩

theorem gamma2_pos (u : ℚ) : 0 < gamma2 u :=
  Real.rpow_pos_of_pos two_pos _

theorem gamma2_zero : gamma2 0 = 1 / 2 := by
  have h : (((0 : ℚ) : ℝ)) * 2 - 1 = (-1 : ℝ) := by norm_num
  rw [gamma2, h, Real.rpow_neg_one]
  norm_num

theorem lookupS_map_snd {α β : Type} (g : Volume α → Volume β) (l : Sample α) (k : String) :
    lookupS (l.map fun kv => (kv.1, g kv.2)) k = (lookupS l k).map g := by
  induction l with
  | nil => rfl
  | cons kv t ih =>
    obtain ⟨k0, v0⟩ := kv
    by_cases h : k = k0
    · simp [lookupS, h]
    · simp only [List.map_cons, lookupS, if_neg h]
      exact ih

theorem blur_call_skip (o : Blur) (G : ℚ → (Nat → Nat → ℚ) → Nat → Nat → ℚ)
    (dr : BlurDraws) (s : Sample ℚ) (i : List String) (h : o.skip = some true) :
    Blur.call o G dr s i = .ok s := by
  rw [Blur.call, h]
  rfl

theorem longaff_call_skip (o : LongAff) (d : GreyDraws) (s : Sample ℝ) (i : List String)
    (h : o.skip = some true) : LongAff.call o d s i = .ok s := by
  rw [LongAff.call, h]
  rfl

/-! ### Concrete instances used by witnesses and counterexamples -/

/-- A trivial blur-draw record. -/
def drC : BlurDraws :=
  ⟨0, [0], fun _ _ => 1 / 2, fun _ => 1 / 2, fun _ _ => 0, fun _ _ => 0, fun _ _ => 0,
   fun _ _ _ => 0⟩

/-- A trivial greyscale-draw record. -/
def greyDrC : GreyDraws :=
  ⟨1 / 2, fun _ _ => 1 / 2, fun _ _ => 1 / 2, fun _ _ => 1 / 2, fun _ => 1 / 2,
   fun _ => 1 / 2, fun _ => 1 / 2⟩

/-- A rational test volume with extents (2, 1, 1), filled with zeros. -/
def volQ2 : Volume ℚ := ⟨2, 1, 1, fun _ _ _ => 0⟩

/-- A rational test volume with extents (1, 1, 1). -/
def volQ1 : Volume ℚ := ⟨1, 1, 1, fun _ _ _ => 0⟩

/-- A real test volume with extents (1, 1, 1). -/
def volR1 : Volume ℝ := ⟨1, 1, 1, fun _ _ _ => 0⟩

/-- Single-key rational samples. -/
def sampleQ2 : Sample ℚ := [("input", volQ2)]

def sampleQ1 : Sample ℚ := [("input", volQ1)]

def sampleR1 : Sample ℝ := [("input", volR1)]

/-- The dense contents of a rational volume within its extents, for
byte-for-byte comparison at concrete inputs. -/
def volList (v : Volume ℚ) : List (List (List ℚ)) :=
  (List.range v.Z).map fun z =>
    (List.range v.Y).map fun y =>
      (List.range v.X).map fun x => v.data z y x

/-- The dense contents of a rational sample. -/
def sampleList (s : Sample ℚ) : List (String × List (List (List ℚ))) :=
  s.map fun kv => (kv.1, volList kv.2)

/-! ### Claims -/

/-- C1: with `skip_ratio = 1.0`, the skip draw `rand() < 1` always succeeds in
`prepare`, so the paired `apply` of both `SectionBlur` and `GreyscalePerturb`
returns the sample unchanged — the identity transform. -/
theorem skip_ratio_one_identity (oB : Blur) (uB : ℚ)
    (G : ℚ → (Nat → Nat → ℚ) → Nat → Nat → ℚ) (dr : BlurDraws) (sample : Sample ℚ)
    (imgs : List String) (oL : LongAff) (uL : ℚ) (d : GreyDraws) (sampleL : Sample ℝ)
    (imgsL : List String) (hB : oB.skip_ratio = 1) (huB : uB < 1)
    (hL : oL.skip_ratio = 1) (huL : uL < 1) :
    Blur.call (Blur.prepare oB uB) G dr sample imgs = .ok sample ∧
    LongAff.call (LongAff.prepare oL uL) d sampleL imgsL = .ok sampleL := by
  constructor
  · refine blur_call_skip _ _ _ _ _ ?_
    simp only [Blur.prepare]
    rw [hB]
    simp [huB]
  · refine longaff_call_skip _ _ _ _ ?_
    simp only [LongAff.prepare]
    rw [hL]
    simp [huL]

/-- Witness for C1 at concrete inputs. -/
theorem skip_ratio_one_identity_witness :
    Blur.call (Blur.prepare ⟨1, 5, .full, 1, none⟩ (1 / 2)) gaussianFilterM drC sampleQ2
        ["input"] = .ok sampleQ2 ∧
    LongAff.call (LongAff.prepare ⟨.mix, 1, 3 / 10, 3 / 10, none⟩ (1 / 2)) greyDrC sampleR1
        ["input"] = .ok sampleR1 :=
  skip_ratio_one_identity ⟨1, 5, .full, 1, none⟩ (1 / 2) gaussianFilterM drC sampleQ2
    ["input"] ⟨.mix, 1, 3 / 10, 3 / 10, none⟩ (1 / 2) greyDrC sampleR1 ["input"]
    rfl (by norm_num) rfl (by norm_num)

/-- C9: `__init__` of both `Blur` and `LongAff` never creates the `skip`
attribute, so calling `apply` before any `prepare` on the same instance reads
a missing attribute and raises `AttributeError` instead of skipping or
augmenting. -/
theorem call_before_prepare_attribute_error :
    (∀ (ms : Int) (sm : ℚ) (mo : String) (r : ℚ) (o : Blur), Blur.init ms sm mo r = .ok o →
      o.skip = none ∧ ∀ (G : ℚ → (Nat → Nat → ℚ) → Nat → Nat → ℚ) (dr : BlurDraws)
        (sample : Sample ℚ) (imgs : List String),
        Blur.call o G dr sample imgs = .error .attributeError) ∧
    (∀ (mo : String) (r : ℚ) (p : LongAff), LongAff.init mo r = .ok p →
      p.skip = none ∧ ∀ (d : GreyDraws) (sample : Sample ℝ) (imgs : List String),
        LongAff.call p d sample imgs = .error .attributeError) := by
  constructor
  · intro ms sm mo r o h
    rw [Blur.init] at h
    repeat' split at h
    all_goals try exact Except.noConfusion h
    injection h with h'
    subst h'
    exact ⟨rfl, fun G dr sample imgs => rfl⟩
  · intro mo r p h
    rw [LongAff.init] at h
    repeat' split at h
    all_goals try exact Except.noConfusion h
    injection h with h'
    subst h'
    exact ⟨rfl, fun d sample imgs => rfl⟩

/-- Witness for C9 at concrete inputs. -/
theorem call_before_prepare_attribute_error_witness :
    Blur.call ⟨1, 5, .full, 3 / 10, none⟩ gaussianFilterM drC sampleQ2 ["input"] =
      .error .attributeError ∧
    LongAff.call ⟨.mix, 3 / 10, 3 / 10, 3 / 10, none⟩ greyDrC sampleR1 ["input"] =
      .error .attributeError :=
  ⟨(call_before_prepare_attribute_error.1 1 5 "full" (3 / 10) ⟨1, 5, .full, 3 / 10, none⟩
      (by norm_num [Blur.init, set_max_sections, set_sigma_max, set_mode_blur,
        set_skip_ratio])).2 gaussianFilterM drC sampleQ2 ["input"],
   (call_before_prepare_attribute_error.2 "mix" (3 / 10) ⟨.mix, 3 / 10, 3 / 10, 3 / 10, none⟩
      (by norm_num [LongAff.init, set_skip_ratio]; rfl)).2 greyDrC sampleR1
      ["input"]⟩

/-- C10: `set_max_sections 0` is accepted by construction-time validation
(`assert max_sec >= 0`), yet every augmentor with `MAX_SEC = 0` — whatever
its mode, sigma bound or skip ratio — hits the empty integer range
`randint(1, 1)` on every non-skipped apply call and raises `ValueError`
before reading or writing any volume. -/
theorem blur_max_sections_zero :
    Blur.init 0 5 "full" (3 / 10) = .ok ⟨0, 5, .full, 3 / 10, none⟩ ∧
    ∀ (cfg : Blur), cfg.MAX_SEC = 0 → cfg.skip = some false →
      ∀ (G : ℚ → (Nat → Nat → ℚ) → Nat → Nat → ℚ) (dr : BlurDraws) (sample : Sample ℚ)
        (imgs : List String),
        Blur.call cfg G dr sample imgs = .error .valueError := by
  constructor
  · norm_num [Blur.init, set_max_sections, set_sigma_max, set_mode_blur, set_skip_ratio]
  · intro cfg h0 hsk G dr sample imgs
    rw [Blur.call, hsk]
    dsimp only
    rw [Blur.augment, h0]
    have hr : randint 1 ((0 : Int) + 1) dr.numSecDraw = .error .valueError := by
      rw [randint, if_pos]
      norm_num
    rw [hr]
    rfl

/-- Witness for C10: a partial-mode, zero-sigma augmentor with
`max_sections = 0` also always raises. -/
theorem blur_max_sections_zero_witness :
    Blur.call ⟨0, 0, .part, 3 / 10, some false⟩ gaussianFilterM drC sampleQ2 ["input"] =
      .error .valueError :=
  blur_max_sections_zero.2 ⟨0, 0, .part, 3 / 10, some false⟩ rfl rfl gaussianFilterM drC
    sampleQ2 ["input"]

/-- C6 (amended): for every uniform draw `u ∈ [0, 1)`, the gamma exponent
`2 ** (u * 2 - 1)` lies in the half-open range `[1/2, 2)` — it is at least
`1/2` (with equality exactly at `u = 0`) and strictly less than `2`. -/
theorem gamma_exponent_range (u : ℚ) (h0 : 0 ≤ u) (h1 : u < 1) :
    1 / 2 ≤ gamma2 u ∧ gamma2 u < 2 := by
  have hlo : ((u : ℝ)) * 2 - 1 ≥ -1 := by
    have : (0 : ℝ) ≤ (u : ℝ) := by exact_mod_cast h0
    nlinarith
  have hhi : ((u : ℝ)) * 2 - 1 < 1 := by
    have : (u : ℝ) < 1 := by exact_mod_cast h1
    nlinarith
  constructor
  · have hle := (Real.rpow_le_rpow_left_iff (x := (2 : ℝ)) one_lt_two).mpr hlo
    calc (1 : ℝ) / 2 = (2 : ℝ) ^ (-1 : ℝ) := by
          rw [Real.rpow_neg_one]; norm_num
      _ ≤ gamma2 u := hle
  · have hlt := (Real.rpow_lt_rpow_left_iff (x := (2 : ℝ)) one_lt_two).mpr hhi
    calc gamma2 u < (2 : ℝ) ^ (1 : ℝ) := hlt
      _ = 2 := Real.rpow_one 2

/-- Counterexample to C6 as stated: `u = 0` is a legitimate uniform draw
(`0 ≤ u < 1`), yet the gamma exponent equals exactly `1/2`, so it is not
strictly greater than `0.5`. -/
theorem gamma_exponent_range_counterexample :
    (0 : ℚ) ≤ 0 ∧ (0 : ℚ) < 1 ∧ ¬ (1 : ℝ) / 2 < gamma2 0 := by
  refine ⟨le_refl 0, by decide, ?_⟩
  rw [gamma2_zero]
  exact lt_irrefl _

/-- Witness for C6 (amended) at the concrete draw `u = 0`. -/
theorem gamma_exponent_range_witness :
    1 / 2 ≤ gamma2 0 ∧ gamma2 0 < 2 :=
  gamma_exponent_range 0 (le_refl 0) (by decide)

/-- C7: `RandomFlip.apply` resolves one single rule vector — the supplied one
when present, otherwise four independent coin flips `rand(4) > 0.5` — and
transforms every volume of the sample with that same rule. -/
theorem flip_single_rule {α : Type} (sample : Sample α) (rule : Option FlipRule)
    (du : Fin 4 → ℚ) :
    (∀ k v, lookupS sample k = some v →
      lookupS (Flip.call sample rule du) k = some (flipVol (resolveRule rule du) v)) ∧
    (∀ r, resolveRule (some r) du = r) ∧ resolveRule none du = coinRule du := by
  refine ⟨?_, fun r => rfl, rfl⟩
  intro k v hv
  rw [Flip.call, lookupS_map_snd, hv]
  rfl

/-- Witness for C7 at concrete inputs. -/
theorem flip_single_rule_witness :
    lookupS (Flip.call sampleQ1 none fun _ => 0) "input" =
      some (flipVol (resolveRule none fun _ => 0) volQ1) :=
  (flip_single_rule sampleQ1 none fun _ => 0).1 "input" volQ1 rfl

/-- C8: applying the flip with the explicit all-true rule twice restores the
extents and every in-range voxel of any volume — the transform is an
involution under that rule. -/
theorem flip_allTrue_involution {α : Type} (v : Volume α) :
    (flipVol allTrueRule (flipVol allTrueRule v)).Z = v.Z ∧
    (flipVol allTrueRule (flipVol allTrueRule v)).Y = v.Y ∧
    (flipVol allTrueRule (flipVol allTrueRule v)).X = v.X ∧
    ∀ z y x, z < v.Z → y < v.Y → x < v.X →
      (flipVol allTrueRule (flipVol allTrueRule v)).data z y x = v.data z y x := by
  refine ⟨rfl, rfl, rfl, ?_⟩
  intro z y x hz hy hx
  show v.data (v.Z - 1 - (v.Z - 1 - z)) (v.Y - 1 - (v.Y - 1 - y))
      (v.X - 1 - (v.X - 1 - x)) = v.data z y x
  have hz' : v.Z - 1 - (v.Z - 1 - z) = z := by omega
  have hy' : v.Y - 1 - (v.Y - 1 - y) = y := by omega
  have hx' : v.X - 1 - (v.X - 1 - x) = x := by omega
  rw [hz', hy', hx']

/-- Witness for C8 at a concrete volume and voxel. -/
theorem flip_allTrue_involution_witness :
    (flipVol allTrueRule (flipVol allTrueRule volQ1)).data 0 0 0 = volQ1.data 0 0 0 :=
  (flip_allTrue_involution volQ1).2.2.2 0 0 0 (by decide) (by decide) (by decide)

/-- C4: in both the per-slice (2D) and whole-volume (3D) paths of
`GreyscalePerturb`, every affected voxel is transformed by, in order:
multiply by the contrast scale, add the brightness shift, clip to [0, 1],
raise to the gamma exponent (this order is the definition of `greyPoint`);
consequently every transformed value lies in [0, 1]. -/
theorem grey_order_and_bounds (o : LongAff) (d : GreyDraws) (sample : Sample ℝ)
    (imgs : List String) (hnd : imgs.Nodup) (j : Nat) (hj : j < imgs.length)
    (v : Volume ℝ) (hv : lookupS sample (imgs.get ⟨j, hj⟩) = some v) :
    (∃ v2, lookupS (LongAff.augment2D o d sample imgs) (imgs.get ⟨j, hj⟩) = some v2 ∧
      ∀ z y x, z < v.Z →
        v2.data z y x =
          greyPoint (↑(contrastScale o.CONTRAST_FACTOR (d.c2 j z)))
            (↑(brightShift o.BRIGHTNESS_FACTOR (d.b2 j z))) (gamma2 (d.g2 j z))
            (v.data z y x) ∧
        0 ≤ v2.data z y x ∧ v2.data z y x ≤ 1) ∧
    (∃ v3, lookupS (LongAff.augment3D o d sample imgs) (imgs.get ⟨j, hj⟩) = some v3 ∧
      ∀ z y x,
        v3.data z y x =
          greyPoint (↑(contrastScale o.CONTRAST_FACTOR (d.c3 j)))
            (↑(brightShift o.BRIGHTNESS_FACTOR (d.b3 j))) (gamma2 (d.g3 j))
            (v.data z y x) ∧
        0 ≤ v3.data z y x ∧ v3.data z y x ≤ 1) := by
  constructor
  · have h2 := lookupS_mapVols_get (grey2DVol o d) imgs hnd j hj 0 sample v hv
    rw [Nat.zero_add] at h2
    refine ⟨grey2DVol o d j v, h2, ?_⟩
    intro z y x hz
    have hdata : (grey2DVol o d j v).data z y x =
        greyPoint (↑(contrastScale o.CONTRAST_FACTOR (d.c2 j z)))
          (↑(brightShift o.BRIGHTNESS_FACTOR (d.b2 j z))) (gamma2 (d.g2 j z))
          (v.data z y x) := by
      simp only [grey2DVol, if_pos hz]
    refine ⟨hdata, ?_, ?_⟩
    · rw [hdata]
      exact (greyPoint_bounds _ _ _ _ (gamma2_pos _)).1
    · rw [hdata]
      exact (greyPoint_bounds _ _ _ _ (gamma2_pos _)).2
  · have h3 := lookupS_mapVols_get (grey3DVol o d) imgs hnd j hj 0 sample v hv
    rw [Nat.zero_add] at h3
    refine ⟨grey3DVol o d j v, h3, ?_⟩
    intro z y x
    refine ⟨rfl, ?_, ?_⟩
    · exact (greyPoint_bounds _ _ _ _ (gamma2_pos _)).1
    · exact (greyPoint_bounds _ _ _ _ (gamma2_pos _)).2

/-- Witness for C4 at concrete inputs. -/
theorem grey_order_and_bounds_witness :
    (∃ v2, lookupS (LongAff.augment2D ⟨.mix, 3 / 10, 3 / 10, 3 / 10, some false⟩ greyDrC
        sampleR1 ["input"]) (["input"].get ⟨0, by decide⟩) = some v2 ∧
      ∀ z y x, z < volR1.Z →
        v2.data z y x =
          greyPoint (↑(contrastScale (3 / 10) (greyDrC.c2 0 z)))
            (↑(brightShift (3 / 10) (greyDrC.b2 0 z))) (gamma2 (greyDrC.g2 0 z))
            (volR1.data z y x) ∧
        0 ≤ v2.data z y x ∧ v2.data z y x ≤ 1) ∧
    (∃ v3, lookupS (LongAff.augment3D ⟨.mix, 3 / 10, 3 / 10, 3 / 10, some false⟩ greyDrC
        sampleR1 ["input"]) (["input"].get ⟨0, by decide⟩) = some v3 ∧
      ∀ z y x,
        v3.data z y x =
          greyPoint (↑(contrastScale (3 / 10) (greyDrC.c3 0)))
            (↑(brightShift (3 / 10) (greyDrC.b3 0))) (gamma2 (greyDrC.g3 0))
            (volR1.data z y x) ∧
        0 ≤ v3.data z y x ∧ v3.data z y x ≤ 1) :=
  grey_order_and_bounds ⟨.mix, 3 / 10, 3 / 10, 3 / 10, some false⟩ greyDrC sampleR1
    ["input"] (by decide) 0 (by decide) volR1 rfl

/-- C2: in a non-skipped `SectionBlur.apply`, mismatched trailing extents
across the given keys, or a drawn section count not strictly below the
z-extent of some key, make the preamble assertions fail: the call raises before the
mode loops run, so no volume is mutated.  With `max_sections = 1` the drawn
count is always 1, so a volume with `Z = 1` always raises (the witness). -/
theorem blur_precondition_raises (G : ℚ → (Nat → Nat → ℚ) → Nat → Nat → ℚ) (cfg : Blur)
    (dr : BlurDraws) (sample : Sample ℚ) (imgs : List String)
    (hmax : 1 ≤ cfg.MAX_SEC)
    (hpresent : ∀ k ∈ imgs, ∃ v, lookupS sample k = some v)
    (hbad :
      (∃ k₁ ∈ imgs, ∃ k₂ ∈ imgs, ∃ v₁ v₂, lookupS sample k₁ = some v₁ ∧
        lookupS sample k₂ = some v₂ ∧ dimsOf v₁ ≠ dimsOf v₂) ∨
      (∃ k ∈ imgs, ∃ v, lookupS sample k = some v ∧
        (v.Z : Int) ≤ drawnNumSec cfg.MAX_SEC dr.numSecDraw)) :
    raisesErr (Blur.augment G cfg dr sample imgs) = true := by
  by_cases hc : ∃ k ∈ imgs, ∃ v, lookupS sample k = some v ∧
      (v.Z : Int) ≤ drawnNumSec cfg.MAX_SEC dr.numSecDraw
  · obtain ⟨e, he⟩ := checkKeys_err (drawnNumSec cfg.MAX_SEC dr.numSecDraw) sample imgs
      hpresent hc
    rw [Blur.augment, randint_pos _ _ hmax]
    dsimp only
    rw [he]
    rfl
  · rcases hbad with hmis | hcnt
    · push_neg at hc
      have hall : ∀ k ∈ imgs, ∃ v, lookupS sample k = some v ∧
          drawnNumSec cfg.MAX_SEC dr.numSecDraw < (v.Z : Int) := by
        intro k hk
        obtain ⟨v, hv⟩ := hpresent k hk
        exact ⟨v, hv, hc k hk v hv⟩
      obtain ⟨ds, hds, hmem⟩ :=
        checkKeys_mem (drawnNumSec cfg.MAX_SEC dr.numSecDraw) sample imgs hall
      obtain ⟨k₁, hk₁, k₂, hk₂, v₁, v₂, hv₁, hv₂, hne⟩ := hmis
      have hdd := dedup_two ds _ _ (hmem k₁ hk₁ v₁ hv₁) (hmem k₂ hk₂ v₂ hv₂) hne
      rw [Blur.augment, randint_pos _ _ hmax]
      dsimp only
      rw [hds]
      dsimp only
      rcases h : ds.dedup with _ | ⟨d1, _ | ⟨d2, t⟩⟩
      · rfl
      · exact absurd h (hdd d1)
      · rfl
    · exact absurd hcnt hc

/-- Witness for C2: `max_sections = 1` against a volume with `Z = 1`. -/
theorem blur_precondition_raises_witness :
    raisesErr (Blur.augment gaussianFilterM ⟨1, 5, .full, 3 / 10, some false⟩ drC sampleQ1
      ["input"]) = true :=
  blur_precondition_raises gaussianFilterM ⟨1, 5, .full, 3 / 10, some false⟩ drC sampleQ1
    ["input"] (by decide)
    (by
      intro k hk
      rw [List.mem_singleton] at hk
      subst hk
      exact ⟨volQ1, rfl⟩)
    (Or.inr ⟨"input", List.mem_singleton_self _, volQ1, rfl, by decide⟩)

/-- C5: in the partial/mix path of `SectionBlur`, a processed slice that is not
fully replaced is assembled from the four quadrants cut at the drawn split
point (`x = randint(0, X)`, `y = randint(0, Y)`, each within range for
positive extents); each quadrant independently comes from the blurred plane
when its coin flip succeeds, and the all-false (slice unchanged) and all-true
(slice fully replaced) outcomes are valid non-error runs of `apply`. -/
theorem blur_quadrant_policy :
    (∀ (m : BlurMode) (coin : ℚ) (xdim ydim xd yd : Nat) (q : Fin 4 → ℚ)
      (S B : Nat → Nat → ℚ), m = .part ∨ (m = .mix ∧ ¬ (1 : ℚ) / 2 < coin) →
      0 < xdim → 0 < ydim →
      quadStep m coin xdim ydim xd yd q S B =
        .ok (quadAssemble (yd % ydim) (xd % xdim) (decide ((1 : ℚ) / 2 < q 0))
          (decide ((1 : ℚ) / 2 < q 1)) (decide ((1 : ℚ) / 2 < q 2))
          (decide ((1 : ℚ) / 2 < q 3)) S B)) ∧
    (∀ xdim ydim xd yd : Nat, 0 < xdim → 0 < ydim →
      xd % xdim < xdim ∧ yd % ydim < ydim) ∧
    (∀ (ys xs : Nat) (S B : Nat → Nat → ℚ),
      quadAssemble ys xs false false false false S B = S ∧
      quadAssemble ys xs true true true true S B = B) ∧
    (∀ (G : ℚ → (Nat → Nat → ℚ) → Nat → Nat → ℚ) (cfg : Blur) (dr : BlurDraws)
      (sample : Sample ℚ) (imgs : List String) (Z Y X : Nat),
      cfg.mode = .part → 1 ≤ cfg.MAX_SEC → imgs ≠ [] → 0 < X → 0 < Y →
      (∀ k ∈ imgs, ∃ v, lookupS sample k = some v ∧
        drawnNumSec cfg.MAX_SEC dr.numSecDraw < (v.Z : Int) ∧ dimsOf v = (Z, Y, X)) →
      returnsOk (Blur.augment G cfg dr sample imgs) = true) := by
  refine ⟨?_, ?_, ?_, ?_⟩
  · intro m coin xdim ydim xd yd q S B h hx hy
    have hneg : ¬(m = BlurMode.mix ∧ (1 : ℚ) / 2 < coin) := by
      rcases h with rfl | ⟨rfl, hcn⟩
      · rintro ⟨h1, _⟩
        exact BlurMode.noConfusion h1
      · rintro ⟨_, h2⟩
        exact hcn h2
    rw [quadStep, if_neg hneg]
    have hxc : ¬((xdim : Int) ≤ 0) := by omega
    have hyc : ¬((ydim : Int) ≤ 0) := by omega
    have hxr : randint 0 (xdim : Int) xd = .ok (0 + (xd : Int) % (xdim : Int)) := by
      rw [randint, if_neg hxc, sub_zero]
    have hyr : randint 0 (ydim : Int) yd = .ok (0 + (yd : Int) % (ydim : Int)) := by
      rw [randint, if_neg hyc, sub_zero]
    rw [hxr]
    dsimp only
    rw [hyr]
    dsimp only
    have hxt : ((0 : Int) + (xd : Int) % (xdim : Int)).toNat = xd % xdim := by
      rw [zero_add, ← Int.ofNat_emod, Int.toNat_natCast]
    have hyt : ((0 : Int) + (yd : Int) % (ydim : Int)).toNat = yd % ydim := by
      rw [zero_add, ← Int.ofNat_emod, Int.toNat_natCast]
    rw [hxt, hyt]
  · intro xdim ydim xd yd hx hy
    exact ⟨Nat.mod_lt xd hx, Nat.mod_lt yd hy⟩
  · intro ys xs S B
    constructor
    · funext y x
      simp [quadAssemble]
    · funext y x
      simp [quadAssemble]
  · intro G cfg dr sample imgs Z Y X hm hmax hne hX hY hall
    rw [augment_part_run G cfg dr sample imgs Z Y X hm hmax hne hall]
    obtain ⟨s', hs'⟩ :=
      blurPartLoop_ok G cfg.sigma_max .part dr X Y hX hY dr.zlocs 0 imgs sample
    rw [hs']
    rfl

/-- Witness for C5 at concrete inputs. -/
theorem blur_quadrant_policy_witness :
    quadStep .part 0 1 1 0 0 (fun _ => 0) (vslice volQ2 0) (vslice volQ2 1) =
      .ok (quadAssemble (0 % 1) (0 % 1) (decide ((1 : ℚ) / 2 < 0))
        (decide ((1 : ℚ) / 2 < 0)) (decide ((1 : ℚ) / 2 < 0)) (decide ((1 : ℚ) / 2 < 0))
        (vslice volQ2 0) (vslice volQ2 1)) ∧
    returnsOk (Blur.augment gaussianFilterM ⟨1, 5, .part, 3 / 10, some false⟩ drC sampleQ2
      ["input"]) = true :=
  ⟨blur_quadrant_policy.1 .part 0 1 1 0 0 (fun _ => 0) (vslice volQ2 0) (vslice volQ2 1)
      (Or.inl rfl) (by decide) (by decide),
   blur_quadrant_policy.2.2.2 gaussianFilterM ⟨1, 5, .part, 3 / 10, some false⟩ drC sampleQ2
      ["input"] 2 1 1 rfl (by decide) (by simp) (by decide) (by decide)
      (by
        intro k hk
        rw [List.mem_singleton] at hk
        subst hk
        exact ⟨volQ2, rfl, by decide, rfl⟩)⟩

/-- C3 (amended): in full mode, the drawn section count lies in
[1, max_sections]; exactly that many distinct z-slices are selected and each
selected slice is overwritten by the Gaussian blur of the original slice
(per-(z, key) fresh sigma), which may coincide with the original slice (e.g.
with a zero sigma); every z-slice outside the drawn set is untouched in every
volume. -/
theorem blur_full_sections (G : ℚ → (Nat → Nat → ℚ) → Nat → Nat → ℚ) (cfg : Blur)
    (dr : BlurDraws) (sample : Sample ℚ) (imgs : List String) (Z Y X : Nat)
    (hm : cfg.mode = .full) (hmax : 1 ≤ cfg.MAX_SEC) (hnd : imgs.Nodup) (hne : imgs ≠ [])
    (hall : ∀ k ∈ imgs, ∃ v, lookupS sample k = some v ∧ dimsOf v = (Z, Y, X))
    (hcnt : drawnNumSec cfg.MAX_SEC dr.numSecDraw < (Z : Int))
    (hzn : dr.zlocs.Nodup)
    (hzlen : dr.zlocs.length = (drawnNumSec cfg.MAX_SEC dr.numSecDraw).toNat)
    (hzrange : ∀ z ∈ dr.zlocs, z < Z) :
    1 ≤ drawnNumSec cfg.MAX_SEC dr.numSecDraw ∧
    drawnNumSec cfg.MAX_SEC dr.numSecDraw ≤ cfg.MAX_SEC ∧
    dr.zlocs.Nodup ∧
    dr.zlocs.length = (drawnNumSec cfg.MAX_SEC dr.numSecDraw).toNat ∧
    ∃ out, Blur.augment G cfg dr sample imgs = .ok out ∧
      ∀ j, ∀ hj : j < imgs.length, ∀ v, lookupS sample (imgs.get ⟨j, hj⟩) = some v →
        ∃ v', lookupS out (imgs.get ⟨j, hj⟩) = some v' ∧
          (∀ z, z ∉ dr.zlocs → ∀ y x, v'.data z y x = v.data z y x) ∧
          (∀ i, ∀ hi : i < dr.zlocs.length, ∀ y x,
            v'.data (dr.zlocs.get ⟨i, hi⟩) y x =
              G (dr.sigmaFull i j * cfg.sigma_max) (vslice v (dr.zlocs.get ⟨i, hi⟩)) y x) := by
  have hall' : ∀ k ∈ imgs, ∃ v, lookupS sample k = some v ∧
      drawnNumSec cfg.MAX_SEC dr.numSecDraw < (v.Z : Int) ∧ dimsOf v = (Z, Y, X) := by
    intro k hk
    obtain ⟨v, hv, hd⟩ := hall k hk
    have h3 := hd
    simp only [dimsOf, Prod.mk.injEq] at h3
    obtain ⟨hZ, _, _⟩ := h3
    exact ⟨v, hv, hZ ▸ hcnt, hd⟩
  refine ⟨(drawnNumSec_bounds _ _ hmax).1, (drawnNumSec_bounds _ _ hmax).2, hzn, hzlen, ?_⟩
  rw [augment_full_run G cfg dr sample imgs (Z, Y, X) hm hmax hne hall']
  refine ⟨_, rfl, ?_⟩
  intro j hj v hv
  obtain ⟨v', hl, _, _, _, hunt, hcho⟩ :=
    blurFullLoop_char G cfg.sigma_max dr.sigmaFull imgs hnd dr.zlocs hzn 0 sample j hj v hv
  refine ⟨v', hl, hunt, ?_⟩
  intro i hi y x
  have h := hcho i hi y x
  rw [Nat.zero_add] at h
  exact h

/-- Witness for C3 (amended) at concrete inputs. -/
theorem blur_full_sections_witness :
    1 ≤ drawnNumSec (1 : Int) drC.numSecDraw ∧
    drawnNumSec (1 : Int) drC.numSecDraw ≤ (1 : Int) ∧
    drC.zlocs.Nodup ∧
    drC.zlocs.length = (drawnNumSec (1 : Int) drC.numSecDraw).toNat ∧
    ∃ out, Blur.augment gaussianFilterM ⟨1, 5, .full, 3 / 10, some false⟩ drC sampleQ2
        ["input"] = .ok out ∧
      ∀ j, ∀ hj : j < (["input"] : List String).length, ∀ v,
        lookupS sampleQ2 ((["input"] : List String).get ⟨j, hj⟩) = some v →
        ∃ v', lookupS out ((["input"] : List String).get ⟨j, hj⟩) = some v' ∧
          (∀ z, z ∉ drC.zlocs → ∀ y x, v'.data z y x = v.data z y x) ∧
          (∀ i, ∀ hi : i < drC.zlocs.length, ∀ y x,
            v'.data (drC.zlocs.get ⟨i, hi⟩) y x =
              gaussianFilterM (drC.sigmaFull i j * (5 : ℚ))
                (vslice v (drC.zlocs.get ⟨i, hi⟩)) y x) :=
  blur_full_sections gaussianFilterM ⟨1, 5, .full, 3 / 10, some false⟩ drC sampleQ2 ["input"]
    2 1 1 rfl (by decide) (by simp) (by simp)
    (by
      intro k hk
      rw [List.mem_singleton] at hk
      subst hk
      exact ⟨volQ2, rfl, rfl⟩)
    (by decide) (by simp [drC]) (by decide)
    (by
      intro z hz
      simp only [drC, List.mem_singleton] at hz
      omega)

/-- Counterexample to C3 as stated: with a zero blur width (`sigma_max = 0`,
a valid configuration) the Gaussian blur is the identity, so a successful
full-mode `apply` that draws `num_sections = 1` leaves the sample
byte-for-byte unchanged — no z-slice differs from the input for any key, not
"exactly num_sections" of them. -/
theorem blur_full_sections_counterexample :
    drawnNumSec (1 : Int) drC.numSecDraw = 1 ∧ drC.zlocs = [0] ∧
    (match Blur.augment gaussianFilterM ⟨1, 0, .full, 3 / 10, some false⟩ drC sampleQ2
        ["input"] with
    | .ok out => sampleList out
    | .error _ => []) = sampleList sampleQ2 := by
  have hall : ∀ k ∈ (["input"] : List String), ∃ v, lookupS sampleQ2 k = some v ∧
      drawnNumSec (1 : Int) drC.numSecDraw < (v.Z : Int) ∧ dimsOf v = (2, 1, 1) := by
    intro k hk
    rw [List.mem_singleton] at hk
    subst hk
    exact ⟨volQ2, rfl, by decide, rfl⟩
  refine ⟨by decide, rfl, ?_⟩
  rw [augment_full_run gaussianFilterM ⟨1, 0, .full, 3 / 10, some false⟩ drC sampleQ2
    ["input"] (2, 1, 1) rfl (by decide) (by simp) hall]
  dsimp only
  norm_num [blurFullLoop, mapVols, lookupS, sampleQ2, setVolS, setSlice, vslice,
    gaussianFilterM, drC, volQ2, sampleList, volList, List.range_succ]

end EMData
